import Mathlib

/-!
Verification of the `dash` repository's two glue scripts.

`agent_bridge.py` is modelled by: `build_prompt` (prompt construction from
role-tagged messages), `processBlock` / `processAssistant` / `mainLoop`
(the streaming delta emitter over the SDK message stream), and `render`
(the SSE line written for each emitted event).

`agent.py` is modelled by: `run_tool` (the JSON-RPC subprocess relay with
its error taxonomy), and `toolLoop` / `chatTurn` (one turn of the
interactive chat loop, parameterised over a script of API outcomes).

External collaborators (the SDK stream, the hosted API, the subprocess,
`json.loads`) are opaque in the source and are therefore universally
quantified oracles here; everything the scripts themselves compute is
embedded executably.
-/

/-- JSON values as produced by Python's `json` module: strings, integers,
booleans, null, arrays, and objects (dicts with insertion order). -/
inductive JsonVal where
  | str (s : String)
  | num (n : Int)
  | bool (b : Bool)
  | null
  | arr (xs : List JsonVal)
  | obj (fields : List (String × JsonVal))

/-- One hexadecimal digit, lowercase, as Python's json encoder prints it. -/
def hexDigit (n : Nat) : Char :=
  if n < 10 then Char.ofNat (48 + n) else Char.ofNat (87 + n)

/-- Four hexadecimal digits for a \uXXXX escape. -/
def hex4 (n : Nat) : String :=
  String.mk [hexDigit (n / 4096 % 16), hexDigit (n / 256 % 16),
             hexDigit (n / 16 % 16), hexDigit (n % 16)]

/-- Escaping of a single character inside a JSON string literal, following
CPython's `json.dumps` with `ensure_ascii=False`. -/
def jsonEscapeChar (c : Char) : String :=
  if c = '"' then "\\\""
  else if c = '\\' then "\\\\"
  else if c = '\n' then "\\n"
  else if c = '\r' then "\\r"
  else if c = '\t' then "\\t"
  else if c.toNat = 8 then "\\b"
  else if c.toNat = 12 then "\\f"
  else if c.toNat < 32 then "\\u" ++ hex4 c.toNat
  else String.singleton c

/-- Escaping of a whole JSON string body. -/
def jsonEscape (s : String) : String :=
  String.join (s.data.map jsonEscapeChar)

mutual

/-- `json.dumps` with default separators (", " between items, ": " after
keys) and `ensure_ascii=False`, as used throughout both scripts. -/
def JsonVal.dumps : JsonVal → String
  | .str s => "\"" ++ jsonEscape s ++ "\""
  | .num n => toString n
  | .bool true => "true"
  | .bool false => "false"
  | .null => "null"
  | .arr xs => "[" ++ JsonVal.dumpsList xs ++ "]"
  | .obj fields => "\x7b" ++ JsonVal.dumpsFields fields ++ "\x7d"

/-- Comma-separated serialization of array elements. -/
def JsonVal.dumpsList : List JsonVal → String
  | [] => ""
  | [x] => x.dumps
  | x :: y :: rest => x.dumps ++ ", " ++ JsonVal.dumpsList (y :: rest)

/-- Comma-separated serialization of object entries. -/
def JsonVal.dumpsFields : List (String × JsonVal) → String
  | [] => ""
  | [(k, v)] => "\"" ++ jsonEscape k ++ "\": " ++ v.dumps
  | (k, v) :: p :: rest =>
      "\"" ++ jsonEscape k ++ "\": " ++ v.dumps ++ ", " ++ JsonVal.dumpsFields (p :: rest)

end

/-- Lookup of a key in a parsed JSON object (`dict` access; keys of a
parsed object are distinct). -/
def jsonLookup : List (String × JsonVal) → String → Option JsonVal
  | [], _ => none
  | (k, v) :: rest, key => if k = key then some v else jsonLookup rest key

/-! ## agent_bridge.py: build_prompt -/

/-- One OpenAI-format message from the bridge's stdin payload. -/
structure Msg where
  role : String
  content : String
deriving DecidableEq

/-- The turn history accumulated by `build_prompt`'s loop: `user` messages
become `("User", content)` turns, `assistant` messages become
`("Assistant", content)` turns only when their content is truthy
(non-empty); every other message contributes nothing. -/
def turnHistory : List Msg → List (String × String)
  | [] => []
  | m :: rest =>
    if m.role = "user" then ("User", m.content) :: turnHistory rest
    else if m.role = "assistant" ∧ m.content ≠ "" then
      ("Assistant", m.content) :: turnHistory rest
    else turnHistory rest

/-- The system prompt accumulated by `build_prompt`'s loop: the content of
the last `system` message, defaulting to the accumulator. -/
def systemOf : List Msg → String → String
  | [], acc => acc
  | m :: rest, acc => systemOf rest (if m.role = "system" then m.content else acc)

/-- `build_prompt(messages)`: returns `(system_prompt, user_prompt)`. -/
def build_prompt (messages : List Msg) : String × String :=
  let system := systemOf messages ""
  let history := turnHistory messages
  match history.getLast? with
  | none => (system, "")
  | some last =>
    if last.1 ≠ "User" then (system, last.2)
    else if history.length = 1 then (system, last.2)
    else
      (system,
        "<conversation_history>\n" ++
        String.intercalate "\n\n" (history.dropLast.map (fun p => p.1 ++ ": " ++ p.2)) ++
        "\n</conversation_history>\n\n" ++ last.2)

/-! ## agent_bridge.py: streaming delta emitter -/

/-- The `input` attribute of a ToolUseBlock: a structured dict, or any
other value abstracted by its Python `str()` rendering. -/
inductive ToolInput where
  | dict (fields : List (String × JsonVal))
  | nonDict (rendered : String)

/-- `json.dumps(block.input) if isinstance(block.input, dict) else
str(block.input)`. -/
def serializeInput : ToolInput → String
  | .dict fields => JsonVal.dumps (.obj fields)
  | .nonDict rendered => rendered

/-- One content block of an SDK `AssistantMessage`; `other` stands for any
block type the bridge's isinstance chain does not handle. -/
inductive Block where
  | text (text : String)
  | thinking (thinking : String)
  | toolUse (id name : String) (input : ToolInput)
  | other

/-- The bridge's per-run delta-tracking state: `text_lens` and
`think_lens` map a block index to the number of characters already
emitted (missing keys read as 0), `seen_tools` is the set of block
indices whose tool call was already announced. -/
structure BridgeState where
  text_lens : Nat → Nat
  think_lens : Nat → Nat
  seen_tools : List Nat
  was_assistant : Bool

/-- One SSE event emitted by the bridge, before serialization.
`toolCall` records both the enumerate position of the block it came from
(`blockIdx`, which governs the `seen_tools` deduplication) and the value
actually written into the event's `index` field (`emittedIdx`). -/
inductive OutEvent where
  | contentDelta (s : String)
  | reasoningDelta (s : String)
  | toolCall (blockIdx emittedIdx : Nat) (id name args : String)
  | usage (promptTok compTok : Nat)
  | done
deriving DecidableEq

/-- Processing of one enumerated content block: suffix diff for text and
thinking blocks, once-only announcement for tool-use blocks. -/
def processBlock (st : BridgeState) (i : Nat) : Block → BridgeState × List OutEvent
  | .text s =>
    if s.length > st.text_lens i then
      (⟨fun j => if j = i then s.length else st.text_lens j,
        st.think_lens, st.seen_tools, st.was_assistant⟩,
       [.contentDelta (s.drop (st.text_lens i))])
    else (st, [])
  | .thinking s =>
    if s.length > st.think_lens i then
      (⟨st.text_lens,
        fun j => if j = i then s.length else st.think_lens j,
        st.seen_tools, st.was_assistant⟩,
       [.reasoningDelta (s.drop (st.think_lens i))])
    else (st, [])
  | .toolUse id name input =>
    if i ∈ st.seen_tools then (st, [])
    else (⟨st.text_lens, st.think_lens, i :: st.seen_tools, st.was_assistant⟩,
          [.toolCall i 0 id name (serializeInput input)])
  | .other => (st, [])

/-- Processing of the enumerated tail of an assistant message's content,
starting at block index `i`. -/
def processBlocks (st : BridgeState) (i : Nat) : List Block → BridgeState × List OutEvent
  | [] => (st, [])
  | b :: rest =>
    let r1 := processBlock st i b
    let r2 := processBlocks r1.1 (i + 1) rest
    (r2.1, r1.2 ++ r2.2)

/-- Handling of one `AssistantMessage`: clear all per-block tracking if
the previous message was not an assistant message, set `was_assistant`,
then process the enumerated content blocks. -/
def processAssistant (st : BridgeState) (blocks : List Block) : BridgeState × List OutEvent :=
  let st0 := if st.was_assistant then st
             else ⟨fun _ => 0, fun _ => 0, [], st.was_assistant⟩
  processBlocks ⟨st0.text_lens, st0.think_lens, st0.seen_tools, true⟩ 0 blocks

/-- Consecutive assistant messages processed in sequence (a run). -/
def runMsgs (st : BridgeState) : List (List Block) → BridgeState × List OutEvent
  | [] => (st, [])
  | m :: rest =>
    let r1 := processAssistant st m
    let r2 := runMsgs r1.1 rest
    (r2.1, r1.2 ++ r2.2)

/-- The tracking state at entry to `main`'s loop. -/
def initialState : BridgeState := ⟨fun _ => 0, fun _ => 0, [], false⟩

/-- The tracking state at the start of a run of assistant messages,
immediately after the per-block tracking was cleared. -/
def freshRunState : BridgeState := ⟨fun _ => 0, fun _ => 0, [], true⟩

/-- A run of consecutive assistant messages processed from the start of
the loop (the first message of the run clears all tracking). -/
def runAssistant (msgs : List (List Block)) : BridgeState × List OutEvent :=
  runMsgs initialState msgs

/-- One message of the upstream SDK stream; `result` carries
`(input_tokens, output_tokens)` when `message.usage` is truthy. -/
inductive SdkMessage where
  | assistant (blocks : List Block)
  | result (usage : Option (Nat × Nat))
  | other

/-- How the upstream async iteration ended when no `ResultMessage` was
seen: normally, or by raising an exception rendered as `msg`. -/
inductive StreamEnd where
  | normal
  | exception (msg : String)

/-- `emit_done(prompt_tok, comp_tok)`: a usage event when either count is
non-zero, then the DONE sentinel. -/
def emitDoneEvents (promptTok compTok : Nat) : List OutEvent :=
  (if promptTok ≠ 0 ∨ compTok ≠ 0 then [OutEvent.usage promptTok compTok] else []) ++
  [OutEvent.done]

/-- `main`'s `async for` loop over the SDK stream, from tracking state
`st`: assistant messages are delta-processed, a `ResultMessage` emits the
usage/DONE tail and stops consuming, any other message clears
`was_assistant`; when the stream ends, an exception is surfaced as a text
delta and the sentinel is emitted unconditionally. -/
def mainLoop (st : BridgeState) : List SdkMessage → StreamEnd → List OutEvent
  | [], .normal => emitDoneEvents 0 0
  | [], .exception e =>
      OutEvent.contentDelta ("\nSDK Error: " ++ e ++ "\n") :: emitDoneEvents 0 0
  | .assistant blocks :: rest, ending =>
      let r := processAssistant st blocks
      r.2 ++ mainLoop r.1 rest ending
  | .result usage :: _, _ =>
      emitDoneEvents (usage.getD (0, 0)).1 (usage.getD (0, 0)).2
  | .other :: rest, ending =>
      mainLoop ⟨st.text_lens, st.think_lens, st.seen_tools, false⟩ rest ending

/-- `main` after the stdin payload was parsed: build the prompt; with no
user prompt emit an error delta and the sentinel, otherwise stream. -/
def mainEvents (messages : List Msg) (stream : List SdkMessage) (ending : StreamEnd) :
    List OutEvent :=
  if (build_prompt messages).2 = "" then
    OutEvent.contentDelta "Error: No user message" :: emitDoneEvents 0 0
  else
    mainLoop initialState stream ending

/-- The stdout line written for one emitted event: `emit` writes
`data: <json.dumps of the payload>`, `emit_done` writes the literal
sentinel line. -/
def render : OutEvent → String
  | .contentDelta s =>
      "data: " ++ JsonVal.dumps (.obj [("choices", .arr [.obj [("delta",
        .obj [("content", .str s)])]])])
  | .reasoningDelta s =>
      "data: " ++ JsonVal.dumps (.obj [("choices", .arr [.obj [("delta",
        .obj [("reasoning", .str s)])]])])
  | .toolCall _ k id name args =>
      let fn : JsonVal := .obj [("name", .str name), ("arguments", .str args)]
      let call : JsonVal := .obj [("index", .num k), ("id", .str id),
        ("type", .str "function"), ("function", fn)]
      "data: " ++ JsonVal.dumps (.obj [("choices",
        .arr [.obj [("delta", .obj [("tool_calls", .arr [call])])]])])
  | .usage p c =>
      "data: " ++ JsonVal.dumps (.obj [("choices", .arr []),
        ("usage", .obj [("prompt_tokens", .num p), ("completion_tokens", .num c),
          ("total_tokens", .num (p + c))])])
  | .done => "data: [DONE]"

/-- The full sequence of lines the bridge writes to stdout for one
invocation that parsed its stdin payload. -/
def mainStdout (messages : List Msg) (stream : List SdkMessage) (ending : StreamEnd) :
    List String :=
  (mainEvents messages stream ending).map render

/-! ## agent.py: run_tool -/

/-- Outcome of the one-shot `subprocess.run` call: a `TimeoutExpired`
after the 60-unit limit, or completion with captured stdout/stderr. -/
inductive ProcOutcome where
  | timeout
  | completed (stdout stderr : String)

/-- Python's whitespace set for `str.strip()`. -/
def isPySpace (c : Char) : Bool :=
  c = ' ' ∨ c = '\t' ∨ c = '\n' ∨ c = '\r' ∨ c = '\x0b' ∨ c = '\x0c'

/-- Python `s.strip()`: whitespace removed from both ends. -/
def pyStrip (s : String) : String :=
  String.mk (((s.data.dropWhile isPySpace).reverse.dropWhile isPySpace).reverse)

/-- Python `s[:n]`: the first `n` characters. -/
def pyTake (s : String) (n : Nat) : String :=
  String.mk (s.data.take n)

/-- Splitting a character list on a separator, keeping empty pieces, as
Python `str.split` with an explicit separator does. -/
def splitCharList (sep : Char) : List Char → List (List Char)
  | [] => [[]]
  | c :: rest =>
    let r := splitCharList sep rest
    if c = sep then [] :: r
    else
      match r with
      | [] => [[c]]
      | hd :: tl => (c :: hd) :: tl

/-- Python `s.split("\n")`. -/
def pySplitNL (s : String) : List String :=
  (splitCharList '\n' s.data).map String.mk

/-- `proc.stdout.strip().split("\n")` filtered to the non-blank lines. -/
def stripLines (stdout : String) : List String :=
  (pySplitNL (pyStrip stdout)).filter (fun l => pyStrip l ≠ "")

/-- The comprehension `[item.get("text", "") for item in content if
item.get("type") == "text"]` followed by `"\n".join`: `none` stands for a
Python exception (a non-dict item, or a non-string `text` field reaching
`join`). -/
def extractTexts : List JsonVal → Option (List String)
  | [] => some []
  | .obj fields :: rest =>
    match extractTexts rest with
    | none => none
    | some ts =>
      match jsonLookup fields "type" with
      | some (.str ty) =>
        if ty = "text" then
          match jsonLookup fields "text" with
          | none => some ("" :: ts)
          | some (.str s) => some (s :: ts)
          | some _ => none
        else some ts
      | _ => some ts
  | _ :: _ => none

/-- The two newline-terminated JSON-RPC requests written to the
subprocess in one batch: `initialize` (id 0) then `tools/call` (id 1). -/
def toolCallPayload (name : String) (args : JsonVal) : String :=
  JsonVal.dumps (.obj [("jsonrpc", .str "2.0"), ("method", .str "initialize"),
    ("params", .obj []), ("id", .num 0)]) ++ "\n" ++
  JsonVal.dumps (.obj [("jsonrpc", .str "2.0"), ("method", .str "tools/call"),
    ("params", .obj [("name", .str name), ("arguments", args)]), ("id", .num 1)]) ++ "\n"

/-- `run_tool(name, args)` with the `dashmcp` subprocess abstracted as an
oracle `proc` from its stdin batch to an outcome, and `json.loads` as an
oracle `loads` (`loads line = none` models `JSONDecodeError`). The result
is `some` returned string, or `none` when the Python code would raise an
uncaught exception. -/
def run_tool (name : String) (args : JsonVal) (proc : String → ProcOutcome)
    (loads : String → Option JsonVal) : Option String :=
  match proc (toolCallPayload name args) with
  | .timeout => some (JsonVal.dumps (.obj [("error", .str "Tool call timed out after 60s")]))
  | .completed stdout stderr =>
    let lines := stripLines stdout
    if lines.length < 2 then
      some (JsonVal.dumps (.obj [("error", .str "No response from dashmcp"),
        ("stderr", .str (pyTake stderr 500))]))
    else
      let second := lines.getD 1 ""
      match loads second with
      | none => some (JsonVal.dumps (.obj [("error", .str "Invalid JSON from dashmcp"),
          ("raw", .str (pyTake second 500))]))
      | some (.obj respFields) =>
        match jsonLookup respFields "error" with
        | some err => some (JsonVal.dumps err)
        | none =>
          match (jsonLookup respFields "result").getD (.obj []) with
          | .obj resultFields =>
            match (jsonLookup resultFields "content").getD (.arr []) with
            | .arr items =>
              match extractTexts items with
              | none => none
              | some texts =>
                some (if texts.isEmpty then JsonVal.dumps (.obj resultFields)
                      else String.intercalate "\n" texts)
            | .str s =>
              if s = "" then some (JsonVal.dumps (.obj resultFields)) else none
            | .obj [] => some (JsonVal.dumps (.obj resultFields))
            | _ => none
          | _ => none
      | some _ => none

/-! ## agent.py: chat loop -/

/-- One content block of an API response: a text block (carrying the
`text` attribute the final printing step looks for), a `tool_use` block,
or any other block type. -/
inductive RespBlock where
  | text (s : String)
  | toolUse (id name : String) (input : JsonVal)
  | other

/-- Whether `block.type == "tool_use"`. -/
def RespBlock.isToolUse : RespBlock → Bool
  | .toolUse _ _ _ => true
  | _ => false

/-- `b.text` when `hasattr(b, "text")`. -/
def RespBlock.textAttr : RespBlock → Option String
  | .text s => some s
  | _ => none

/-- One entry of the tool-results list sent back to the API. -/
structure ToolResultEntry where
  tool_use_id : String
  content : String

/-- The content of one conversation turn as `agent.py` appends it: a
plain user string, the raw assistant block list, or a tool-results list. -/
inductive TurnContent where
  | text (s : String)
  | blocks (bs : List RespBlock)
  | toolResults (rs : List ToolResultEntry)

/-- One turn of the conversation history kept in `messages`. -/
structure ChatMsg where
  role : String
  content : TurnContent

/-- One response from `client.messages.create`. -/
structure ApiResponse where
  stop_reason : String
  content : List RespBlock

/-- One scripted outcome of an API call: an `anthropic.APIError`, or a
response. -/
inductive ApiResult where
  | failure (err : String)
  | success (resp : ApiResponse)

/-- `format_tool_call(name, args)`: the `[TOOL]` status line with the
arguments JSON truncated at 120 characters. -/
def format_tool_call (name : String) (args : JsonVal) : String :=
  let argsStr := args.dumps
  let argsStr := if argsStr.length > 120 then pyTake argsStr 117 ++ "..." else argsStr
  "  [TOOL] " ++ name ++ "(" ++ argsStr ++ ")"

/-- The tool-results turn built for one response's tool blocks, with the
tool relay abstracted as `rtf`. -/
def toolResultsOf (rtf : String → JsonVal → String) (toolBlocks : List RespBlock) :
    List ToolResultEntry :=
  toolBlocks.map fun b =>
    match b with
    | .toolUse id name input => ⟨id, rtf name input⟩
    | _ => ⟨"", ""⟩

/-- The `[TOOL]` lines printed for one response's tool blocks. -/
def toolPrintsOf (toolBlocks : List RespBlock) : List String :=
  toolBlocks.map fun b =>
    match b with
    | .toolUse _ name input => format_tool_call name input
    | _ => ""

/-- The two turns one tool-use iteration appends to the history: the
assistant's raw content, then all tool results together as one turn with
role `user`. -/
def assistantToolTurns (rtf : String → JsonVal → String) (resp : ApiResponse) :
    List ChatMsg :=
  [⟨"assistant", .blocks resp.content⟩,
   ⟨"user", .toolResults (toolResultsOf rtf (resp.content.filter RespBlock.isToolUse))⟩]

/-- The inner `while response.stop_reason == "tool_use"` loop, consuming
the script of follow-up API outcomes. Returns the updated history, the
lines printed so far, and the response in scope when the loop exits
(`none` when the script is exhausted while another call is needed, i.e.
the run is not determined by the given script). On a follow-up API
failure the loop breaks after the assistant and tool-result turns were
appended, with the old response still in scope. -/
def toolLoop (rtf : String → JsonVal → String) :
    ApiResponse → List ChatMsg → List String → List ApiResult →
      Option (List ChatMsg × List String × ApiResponse)
  | resp, msgs, prints, [] =>
    if resp.stop_reason = "tool_use" then none
    else some (msgs, prints, resp)
  | resp, msgs, prints, .failure e :: _ =>
    if resp.stop_reason = "tool_use" then
      some (msgs ++ assistantToolTurns rtf resp,
            (prints ++ toolPrintsOf (resp.content.filter RespBlock.isToolUse)) ++
              ["  [ERROR] API: " ++ e],
            resp)
    else some (msgs, prints, resp)
  | resp, msgs, prints, .success r :: rest =>
    if resp.stop_reason = "tool_use" then
      toolLoop rtf r (msgs ++ assistantToolTurns rtf resp)
        (prints ++ toolPrintsOf (resp.content.filter RespBlock.isToolUse)) rest
    else some (msgs, prints, resp)

/-- One full turn of the chat loop for a non-blank, non-quit user input:
append the user turn, make the initial API call (rolling the user turn
back on failure), run the tool-use loop, then print and append the final
text response if any text-attribute blocks are present. Returns the
resulting history and the printed lines. -/
def chatTurn (rtf : String → JsonVal → String) (msgs : List ChatMsg) (input : String)
    (script : List ApiResult) : Option (List ChatMsg × List String) :=
  let msgs1 := msgs ++ [⟨"user", .text input⟩]
  match script with
  | [] => none
  | .failure e :: _ => some (msgs, ["  [ERROR] API: " ++ e])
  | .success r :: rest =>
    match toolLoop rtf r msgs1 [] rest with
    | none => none
    | some (m, prints, final) =>
      let texts := final.content.filterMap RespBlock.textAttr
      if texts.isEmpty then some (m, prints)
      else some (m ++ [⟨"assistant", .blocks final.content⟩],
                 prints ++ ["\n" ++ String.intercalate "\n" texts ++ "\n"])

/-! ## Proof-support definitions -/

/-- A block is covered by a tracking state at index `i` when reprocessing
it there emits nothing: its full text is within the emitted length, or
its tool call was already announced. -/
def coveredBlock (st : BridgeState) (i : Nat) : Block → Prop
  | .text s => s.length ≤ st.text_lens i
  | .thinking s => s.length ≤ st.think_lens i
  | .toolUse _ _ _ => i ∈ st.seen_tools
  | .other => True

/-- All blocks of a list are covered at their enumerate positions,
starting from index `i`. -/
def coveredFrom (st : BridgeState) : Nat → List Block → Prop
  | _, [] => True
  | i, b :: rest => coveredBlock st i b ∧ coveredFrom st (i + 1) rest

/-- Whether an event is a tool-call delta that originated from the block
at enumerate position `i`. -/
def isToolAt (i : Nat) : OutEvent → Bool
  | .toolCall blockIdx _ _ _ _ => blockIdx == i
  | _ => false

/-- The tool block occupying absolute index `i` of a block list whose
first element sits at index `k`, if any. -/
def toolAtFrom : Nat → List Block → Nat → Option (String × String × ToolInput)
  | _, [], _ => none
  | k, b :: rest, i =>
    if k = i then
      match b with
      | .toolUse id name input => some (id, name, input)
      | _ => none
    else toolAtFrom (k + 1) rest i

/-- The first tool block occupying index `i` across a run of assistant
messages. -/
def firstToolAt : List (List Block) → Nat → Option (String × String × ToolInput)
  | [], _ => none
  | m :: rest, i =>
    match toolAtFrom 0 m i with
    | some t => some t
    | none => firstToolAt rest i

/-- The tool-call delta the bridge emits for the tool block `t` found at
enumerate position `i`: the `index` field is the constant 0. -/
def toolEvent (i : Nat) (t : String × String × ToolInput) : OutEvent :=
  .toolCall i 0 t.1 t.2.1 (serializeInput t.2.2)

/-- Whether an event, if it is a tool-call delta, carries 0 in its
emitted `index` field. -/
def toolIdxZero : OutEvent → Bool
  | .toolCall _ emittedIdx _ _ _ => emittedIdx == 0
  | _ => true

/-! ## Helper lemmas -/

/-- A turn present in the history of the tail is present in the history of
the whole list: the head only prepends. -/
theorem turnHistory_cons_mem (hd : Msg) (tl : List Msg) (x : String × String)
    (hx : x ∈ turnHistory tl) : x ∈ turnHistory (hd :: tl) := by
  unfold turnHistory
  split
  · exact List.mem_cons_of_mem _ hx
  · split
    · exact List.mem_cons_of_mem _ hx
    · exact hx

/-- Processing one block never decreases a tracked text length. -/
theorem processBlock_text_mono (st : BridgeState) (i : Nat) (b : Block) (j : Nat) :
    st.text_lens j ≤ (processBlock st i b).1.text_lens j := by
  cases b with
  | text s =>
    simp only [processBlock]
    split
    · next h =>
      by_cases hj : j = i
      · subst hj
        have hle : st.text_lens j ≤ s.length := by omega
        simpa using hle
      · simp [hj]
    · exact Nat.le_refl _
  | thinking s => simp only [processBlock]; split <;> simp
  | toolUse id name input => simp only [processBlock]; split <;> simp
  | other => simp [processBlock]

/-- Processing one block never decreases a tracked thinking length. -/
theorem processBlock_think_mono (st : BridgeState) (i : Nat) (b : Block) (j : Nat) :
    st.think_lens j ≤ (processBlock st i b).1.think_lens j := by
  cases b with
  | text s => simp only [processBlock]; split <;> simp
  | thinking s =>
    simp only [processBlock]
    split
    · next h =>
      by_cases hj : j = i
      · subst hj
        have hle : st.think_lens j ≤ s.length := by omega
        simpa using hle
      · simp [hj]
    · exact Nat.le_refl _
  | toolUse id name input => simp only [processBlock]; split <;> simp
  | other => simp [processBlock]

/-- Processing one block never removes an index from the announced set. -/
theorem processBlock_seen_mono (st : BridgeState) (i : Nat) (b : Block) (t : Nat)
    (h : t ∈ st.seen_tools) : t ∈ (processBlock st i b).1.seen_tools := by
  cases b with
  | text s => simp only [processBlock]; split <;> simpa
  | thinking s => simp only [processBlock]; split <;> simpa
  | toolUse id name input =>
    simp only [processBlock]
    split
    · exact h
    · exact List.mem_cons_of_mem _ h
  | other => simpa [processBlock]

/-- Processing one block leaves the assistant-run flag unchanged. -/
theorem processBlock_was (st : BridgeState) (i : Nat) (b : Block) :
    (processBlock st i b).1.was_assistant = st.was_assistant := by
  cases b with
  | text s => simp only [processBlock]; split <;> rfl
  | thinking s => simp only [processBlock]; split <;> rfl
  | toolUse id name input => simp only [processBlock]; split <;> rfl
  | other => rfl

/-- Processing a block list never decreases a tracked text length. -/
theorem processBlocks_text_mono (bs : List Block) :
    ∀ (st : BridgeState) (i j : Nat),
      st.text_lens j ≤ (processBlocks st i bs).1.text_lens j := by
  induction bs with
  | nil => intro st i j; exact Nat.le_refl _
  | cons b rest ih =>
    intro st i j
    simp only [processBlocks]
    exact Nat.le_trans (processBlock_text_mono st i b j) (ih _ _ j)

/-- Processing a block list never decreases a tracked thinking length. -/
theorem processBlocks_think_mono (bs : List Block) :
    ∀ (st : BridgeState) (i j : Nat),
      st.think_lens j ≤ (processBlocks st i bs).1.think_lens j := by
  induction bs with
  | nil => intro st i j; exact Nat.le_refl _
  | cons b rest ih =>
    intro st i j
    simp only [processBlocks]
    exact Nat.le_trans (processBlock_think_mono st i b j) (ih _ _ j)

/-- Processing a block list never removes an announced index. -/
theorem processBlocks_seen_mono (bs : List Block) :
    ∀ (st : BridgeState) (i t : Nat), t ∈ st.seen_tools →
      t ∈ (processBlocks st i bs).1.seen_tools := by
  induction bs with
  | nil => intro st i t h; exact h
  | cons b rest ih =>
    intro st i t h
    simp only [processBlocks]
    exact ih _ _ t (processBlock_seen_mono st i b t h)

/-- Processing a block list leaves the assistant-run flag unchanged. -/
theorem processBlocks_was (bs : List Block) :
    ∀ (st : BridgeState) (i : Nat),
      (processBlocks st i bs).1.was_assistant = st.was_assistant := by
  induction bs with
  | nil => intro st i; rfl
  | cons b rest ih =>
    intro st i
    simp only [processBlocks]
    rw [ih, processBlock_was]

/-- After handling an assistant message the flag is set. -/
theorem processAssistant_was (st : BridgeState) (blocks : List Block) :
    (processAssistant st blocks).1.was_assistant = true := by
  simp only [processAssistant]
  rw [processBlocks_was]

/-- With the flag already set, handling an assistant message is just
block processing from index 0: no reset happens. -/
theorem processAssistant_of_was (st : BridgeState) (h : st.was_assistant = true)
    (blocks : List Block) : processAssistant st blocks = processBlocks st 0 blocks := by
  cases st with
  | mk tl kl sn wa =>
    cases wa with
    | true => rfl
    | false => cases h

/-- Coverage of one block transfers to any state with pointwise larger
tracking. -/
theorem coveredBlock_of_le (st st2 : BridgeState) (i : Nat) (b : Block)
    (ht : ∀ j, st.text_lens j ≤ st2.text_lens j)
    (hk : ∀ j, st.think_lens j ≤ st2.think_lens j)
    (hs : ∀ t, t ∈ st.seen_tools → t ∈ st2.seen_tools) :
    coveredBlock st i b → coveredBlock st2 i b := by
  cases b with
  | text s => exact fun h => Nat.le_trans h (ht i)
  | thinking s => exact fun h => Nat.le_trans h (hk i)
  | toolUse id name input => exact hs i
  | other => exact fun h => h

/-- Coverage of one block is preserved by processing any block. -/
theorem coveredBlock_processBlock (st : BridgeState) (k : Nat) (b2 : Block)
    (i : Nat) (b : Block) (h : coveredBlock st i b) :
    coveredBlock (processBlock st k b2).1 i b :=
  coveredBlock_of_le st _ i b (processBlock_text_mono st k b2)
    (processBlock_think_mono st k b2) (processBlock_seen_mono st k b2) h

/-- Coverage of one block is preserved by processing a block list. -/
theorem coveredBlock_processBlocks (bs : List Block) (st : BridgeState) (k : Nat)
    (i : Nat) (b : Block) (h : coveredBlock st i b) :
    coveredBlock (processBlocks st k bs).1 i b :=
  coveredBlock_of_le st _ i b (fun j => processBlocks_text_mono bs st k j)
    (fun j => processBlocks_think_mono bs st k j)
    (fun t => processBlocks_seen_mono bs st k t) h

/-- Immediately after one block is processed at index `i`, it is covered
there. -/
theorem processBlock_covers (st : BridgeState) (i : Nat) (b : Block) :
    coveredBlock (processBlock st i b).1 i b := by
  cases b with
  | text s =>
    simp only [processBlock, coveredBlock]
    split
    · simp
    · next h => exact Nat.le_of_not_lt h
  | thinking s =>
    simp only [processBlock, coveredBlock]
    split
    · simp
    · next h => exact Nat.le_of_not_lt h
  | toolUse id name input =>
    simp only [processBlock, coveredBlock]
    split
    · next h => exact h
    · exact List.mem_cons_self _ _
  | other => trivial

/-- After a block list is processed from index `i`, every block in it is
covered at its enumerate position. -/
theorem processBlocks_covers (bs : List Block) :
    ∀ (st : BridgeState) (i : Nat), coveredFrom (processBlocks st i bs).1 i bs := by
  induction bs with
  | nil => intro st i; trivial
  | cons b rest ih =>
    intro st i
    simp only [processBlocks, coveredFrom]
    constructor
    · exact coveredBlock_processBlocks rest _ (i + 1) i b (processBlock_covers st i b)
    · exact ih _ (i + 1)

/-- Reprocessing a covered block emits nothing and leaves the state
unchanged. -/
theorem processBlock_of_covered (st : BridgeState) (i : Nat) (b : Block)
    (h : coveredBlock st i b) : processBlock st i b = (st, []) := by
  cases b with
  | text s =>
    simp only [coveredBlock] at h
    simp only [processBlock]
    rw [if_neg (by omega)]
  | thinking s =>
    simp only [coveredBlock] at h
    simp only [processBlock]
    rw [if_neg (by omega)]
  | toolUse id name input =>
    simp only [coveredBlock] at h
    simp only [processBlock]
    rw [if_pos h]
  | other => rfl

/-- Reprocessing a covered block list emits nothing and leaves the state
unchanged. -/
theorem processBlocks_of_covered (bs : List Block) :
    ∀ (st : BridgeState) (i : Nat), coveredFrom st i bs →
      processBlocks st i bs = (st, []) := by
  induction bs with
  | nil => intro st i _; rfl
  | cons b rest ih =>
    intro st i h
    obtain ⟨h1, h2⟩ := h
    simp only [processBlocks]
    rw [processBlock_of_covered st i b h1]
    simp only
    rw [ih st (i + 1) h2]
    rfl

/-- Tracked lengths never decrease across a run of assistant messages
processed with the run flag set (no reset happens). -/
theorem runMsgs_lens_mono (msgs : List (List Block)) :
    ∀ (st : BridgeState), st.was_assistant = true → ∀ j,
      st.text_lens j ≤ (runMsgs st msgs).1.text_lens j ∧
      st.think_lens j ≤ (runMsgs st msgs).1.think_lens j := by
  induction msgs with
  | nil => intro st _ j; exact ⟨Nat.le_refl _, Nat.le_refl _⟩
  | cons m rest ih =>
    intro st h j
    simp only [runMsgs]
    rw [processAssistant_of_was st h]
    obtain ⟨ih1, ih2⟩ := ih (processBlocks st 0 m).1 (by rw [processBlocks_was]; exact h) j
    exact ⟨Nat.le_trans (processBlocks_text_mono m st 0 j) ih1,
           Nat.le_trans (processBlocks_think_mono m st 0 j) ih2⟩

/-- Announced indices persist across a run processed with the flag set. -/
theorem runMsgs_seen_mono (msgs : List (List Block)) :
    ∀ (st : BridgeState) (t : Nat), st.was_assistant = true → t ∈ st.seen_tools →
      t ∈ (runMsgs st msgs).1.seen_tools := by
  induction msgs with
  | nil => intro st t _ h; exact h
  | cons m rest ih =>
    intro st t hw h
    simp only [runMsgs]
    rw [processAssistant_of_was st hw]
    exact ih _ t (by rw [processBlocks_was]; exact hw)
      (processBlocks_seen_mono m st 0 t h)

/-- The run flag stays set across a run. -/
theorem runMsgs_was (msgs : List (List Block)) :
    ∀ (st : BridgeState), st.was_assistant = true →
      (runMsgs st msgs).1.was_assistant = true := by
  induction msgs with
  | nil => intro st h; exact h
  | cons m rest ih =>
    intro st h
    simp only [runMsgs]
    exact ih _ (processAssistant_was st m)

/-- Text blocks contribute no tool-call events. -/
theorem processBlock_filter_text (st : BridgeState) (k : Nat) (s : String) (i : Nat) :
    ((processBlock st k (.text s)).2.filter (isToolAt i)) = [] := by
  simp only [processBlock]
  split <;> simp [isToolAt]

/-- Thinking blocks contribute no tool-call events. -/
theorem processBlock_filter_think (st : BridgeState) (k : Nat) (s : String) (i : Nat) :
    ((processBlock st k (.thinking s)).2.filter (isToolAt i)) = [] := by
  simp only [processBlock]
  split <;> simp [isToolAt]

/-- A block processed at position `k` contributes no tool-call event
attributed to a different position `i`. -/
theorem processBlock_filter_ne (st : BridgeState) (k : Nat) (b : Block) (i : Nat)
    (hk : k ≠ i) : ((processBlock st k b).2.filter (isToolAt i)) = [] := by
  cases b with
  | text s => exact processBlock_filter_text st k s i
  | thinking s => exact processBlock_filter_think st k s i
  | toolUse id name input =>
    have hb : (k == i) = false := by simpa using hk
    simp only [processBlock]
    split <;> simp [isToolAt, hb]
  | other => rfl

/-- A block processed while position `i` is already announced contributes
no tool-call event attributed to `i`. -/
theorem processBlock_filter_of_seen (st : BridgeState) (k : Nat) (b : Block) (i : Nat)
    (h : i ∈ st.seen_tools) : ((processBlock st k b).2.filter (isToolAt i)) = [] := by
  cases b with
  | text s => exact processBlock_filter_text st k s i
  | thinking s => exact processBlock_filter_think st k s i
  | toolUse id name input =>
    simp only [processBlock]
    split
    · rfl
    · next hnot =>
      have hk : (k == i) = false := by
        simp only [beq_eq_false_iff_ne]
        intro he
        exact hnot (he ▸ h)
      simp [isToolAt, hk]
  | other => rfl

/-- Membership of `i` in the announced set is unchanged by processing a
block at a different position. -/
theorem processBlock_seen_iff (st : BridgeState) (k : Nat) (b : Block) (i : Nat)
    (hk : k ≠ i) :
    (i ∈ (processBlock st k b).1.seen_tools ↔ i ∈ st.seen_tools) := by
  cases b with
  | text s => simp only [processBlock]; split <;> rfl
  | thinking s => simp only [processBlock]; split <;> rfl
  | toolUse id name input =>
    simp only [processBlock]
    split
    · rfl
    · simp [List.mem_cons, (Ne.symm hk)]
  | other => rfl

/-- Non-tool blocks leave the announced set unchanged. -/
theorem processBlock_seen_eq_not_tool (st : BridgeState) (k : Nat) (b : Block)
    (hb : ∀ id name input, b ≠ .toolUse id name input) :
    (processBlock st k b).1.seen_tools = st.seen_tools := by
  cases b with
  | text s => simp only [processBlock]; split <;> rfl
  | thinking s => simp only [processBlock]; split <;> rfl
  | toolUse id name input => exact absurd rfl (hb id name input)
  | other => rfl

/-- Once `i` is announced, a block list contributes no further tool-call
event attributed to `i`. -/
theorem processBlocks_filter_of_seen (bs : List Block) :
    ∀ (k : Nat) (st : BridgeState) (i : Nat), i ∈ st.seen_tools →
      ((processBlocks st k bs).2.filter (isToolAt i)) = [] := by
  induction bs with
  | nil => intro k st i _; rfl
  | cons b rest ih =>
    intro k st i h
    simp only [processBlocks, List.filter_append]
    rw [processBlock_filter_of_seen st k b i h,
        ih (k + 1) _ i (processBlock_seen_mono st k b i h)]
    rfl

/-- Positions already passed contribute no tool-call event: all events of
a block list processed from `k` are attributed to positions `≥ k`. -/
theorem processBlocks_filter_of_lt (bs : List Block) :
    ∀ (k : Nat) (st : BridgeState) (i : Nat), i < k →
      ((processBlocks st k bs).2.filter (isToolAt i)) = [] := by
  induction bs with
  | nil => intro k st i _; rfl
  | cons b rest ih =>
    intro k st i h
    simp only [processBlocks, List.filter_append]
    rw [processBlock_filter_ne st k b i (by omega), ih (k + 1) _ i (by omega)]
    rfl

/-- A position already passed and not announced stays unannounced. -/
theorem processBlocks_not_seen_of_lt (bs : List Block) :
    ∀ (k : Nat) (st : BridgeState) (t : Nat), t ∉ st.seen_tools → t < k →
      t ∉ (processBlocks st k bs).1.seen_tools := by
  induction bs with
  | nil => intro k st t h _; exact h
  | cons b rest ih =>
    intro k st t h hlt
    simp only [processBlocks]
    exact ih (k + 1) _ t
      (fun hc => h ((processBlock_seen_iff st k b t (by omega)).mp hc)) (by omega)

/-- Main single-message characterization: with `i` unannounced, the
tool-call events attributed to `i` during one message are exactly one
event for the tool block occupying `i` (or none when no tool block
occupies `i`), and afterwards `i` is announced exactly when occupied. -/
theorem processBlocks_filter_main (bs : List Block) :
    ∀ (k : Nat) (st : BridgeState) (i : Nat), i ∉ st.seen_tools →
      (((processBlocks st k bs).2.filter (isToolAt i)) =
        (toolAtFrom k bs i).elim [] (fun t => [toolEvent i t])) ∧
      ((i ∈ (processBlocks st k bs).1.seen_tools) ↔ (toolAtFrom k bs i).isSome) := by
  induction bs with
  | nil =>
    intro k st i h
    exact ⟨rfl, by simp [processBlocks, toolAtFrom, h]⟩
  | cons b rest ih =>
    intro k st i h
    simp only [processBlocks, List.filter_append]
    by_cases hk : k = i
    · subst hk
      cases b with
      | toolUse id name input =>
        have hpb : processBlock st k (.toolUse id name input) =
            (⟨st.text_lens, st.think_lens, k :: st.seen_tools, st.was_assistant⟩,
             [.toolCall k 0 id name (serializeInput input)]) := by
          simp [processBlock, h]
        rw [hpb]
        have hmem : k ∈ (BridgeState.mk st.text_lens st.think_lens
            (k :: st.seen_tools) st.was_assistant).seen_tools :=
          List.mem_cons_self _ _
        constructor
        · rw [processBlocks_filter_of_seen rest (k + 1) _ k hmem]
          simp [isToolAt, toolAtFrom, toolEvent]
        · simp only [toolAtFrom, if_pos rfl]
          simpa using processBlocks_seen_mono rest _ (k + 1) k hmem
      | text s =>
        constructor
        · rw [processBlock_filter_text st k s k]
          rw [processBlocks_filter_of_lt rest (k + 1) _ k (by omega)]
          simp [toolAtFrom]
        · simp only [toolAtFrom, if_pos rfl]
          have hseen := processBlock_seen_eq_not_tool st k (.text s) (by intro _ _ _ hc; cases hc)
          have : k ∉ (processBlocks (processBlock st k (.text s)).1 (k + 1) rest).1.seen_tools :=
            processBlocks_not_seen_of_lt rest (k + 1) _ k (by rw [hseen]; exact h) (by omega)
          simp [this]
      | thinking s =>
        constructor
        · rw [processBlock_filter_think st k s k]
          rw [processBlocks_filter_of_lt rest (k + 1) _ k (by omega)]
          simp [toolAtFrom]
        · simp only [toolAtFrom, if_pos rfl]
          have hseen := processBlock_seen_eq_not_tool st k (.thinking s) (by intro _ _ _ hc; cases hc)
          have : k ∉ (processBlocks (processBlock st k (.thinking s)).1 (k + 1) rest).1.seen_tools :=
            processBlocks_not_seen_of_lt rest (k + 1) _ k (by rw [hseen]; exact h) (by omega)
          simp [this]
      | other =>
        constructor
        · rw [show ((processBlock st k Block.other).2.filter (isToolAt k)) = [] from rfl]
          rw [processBlocks_filter_of_lt rest (k + 1) _ k (by omega)]
          simp [toolAtFrom]
        · simp only [toolAtFrom, if_pos rfl]
          have : k ∉ (processBlocks (processBlock st k Block.other).1 (k + 1) rest).1.seen_tools :=
            processBlocks_not_seen_of_lt rest (k + 1) _ k h (by omega)
          simp [this]
    · have h1 : i ∉ (processBlock st k b).1.seen_tools :=
        fun hc => h ((processBlock_seen_iff st k b i hk).mp hc)
      obtain ⟨ihf, ihs⟩ := ih (k + 1) (processBlock st k b).1 i h1
      constructor
      · rw [processBlock_filter_ne st k b i hk, ihf]
        simp [toolAtFrom, hk]
      · rw [ihs]
        simp [toolAtFrom, hk]

/-- With `i` announced, a whole run contributes no tool-call event for
`i`. -/
theorem runMsgs_filter_of_seen (msgs : List (List Block)) :
    ∀ (st : BridgeState) (i : Nat), st.was_assistant = true → i ∈ st.seen_tools →
      ((runMsgs st msgs).2.filter (isToolAt i)) = [] := by
  induction msgs with
  | nil => intro st i _ _; rfl
  | cons m rest ih =>
    intro st i hw h
    simp only [runMsgs, List.filter_append]
    rw [processAssistant_of_was st hw]
    rw [processBlocks_filter_of_seen m 0 st i h]
    rw [ih _ i (by rw [processBlocks_was]; exact hw)
        (processBlocks_seen_mono m st 0 i h)]
    rfl

/-- Run-level characterization: processing a run of assistant messages
with `i` unannounced emits exactly one tool-call event attributed to `i`
when some message has a tool block at `i` (the first such block), and
none otherwise. -/
theorem runMsgs_filter_main (msgs : List (List Block)) :
    ∀ (st : BridgeState) (i : Nat), st.was_assistant = true → i ∉ st.seen_tools →
      ((runMsgs st msgs).2.filter (isToolAt i)) =
        (firstToolAt msgs i).elim [] (fun t => [toolEvent i t]) := by
  induction msgs with
  | nil => intro st i _ _; rfl
  | cons m rest ih =>
    intro st i hw h
    simp only [runMsgs, List.filter_append]
    rw [processAssistant_of_was st hw]
    obtain ⟨hf, hs⟩ := processBlocks_filter_main m 0 st i h
    cases hft : toolAtFrom 0 m i with
    | some t =>
      rw [hft] at hf hs
      simp only [Option.elim_some] at hf
      simp at hs
      rw [hf]
      rw [runMsgs_filter_of_seen rest _ i (by rw [processBlocks_was]; exact hw) hs]
      simp [firstToolAt, hft]
    | none =>
      rw [hft] at hf hs
      simp only [Option.elim_none] at hf
      simp at hs
      rw [hf]
      rw [ih _ i (by rw [processBlocks_was]; exact hw) hs]
      simp [firstToolAt, hft]

/-! ## Claims -/

/-- C2: build_prompt follows the spec's case analysis: a single user
message "hello" with no system message yields ("", "hello"); when the
history's final turn is not authored by the user role, that turn's
content is the prompt directly; and for [user:"a", assistant:"b",
user:"c"] the prompt is the history block with lines "User: a" and
"Assistant: b" followed by "c". -/
theorem build_prompt_case_analysis :
    build_prompt [⟨"user", "hello"⟩] = ("", "hello") ∧
    (∀ (msgs : List Msg) (last : String × String),
        (turnHistory msgs).getLast? = some last → last.1 ≠ "User" →
        (build_prompt msgs).2 = last.2) ∧
    (build_prompt [⟨"user", "a"⟩, ⟨"assistant", "b"⟩, ⟨"user", "c"⟩]).2 =
      "<conversation_history>\nUser: a\n\nAssistant: b\n</conversation_history>\n\nc" := by
  refine ⟨by decide, ?_, by decide⟩
  intro msgs last h1 h2
  simp [build_prompt, h1, h2]

/-- Witness for C2's universal part at a dangling assistant turn. -/
theorem build_prompt_case_analysis_witness :
    (turnHistory [⟨"user", "x"⟩, ⟨"assistant", "y"⟩]).getLast? = some ("Assistant", "y") ∧
    (build_prompt [⟨"user", "x"⟩, ⟨"assistant", "y"⟩]).2 = "y" :=
  ⟨by decide, build_prompt_case_analysis.2.1 _ ("Assistant", "y") (by decide) (by decide)⟩

/-- C3: whenever the subprocess invocation times out, run_tool returns
exactly the JSON string with the 60s timeout error, raising nothing. -/
theorem run_tool_timeout_message :
    ∀ (name : String) (args : JsonVal) (proc : String → ProcOutcome)
      (loads : String → Option JsonVal),
      proc (toolCallPayload name args) = .timeout →
      run_tool name args proc loads =
        some "\x7b\"error\": \"Tool call timed out after 60s\"\x7d" := by
  intro name args proc loads h
  simp only [run_tool, h]
  rfl

/-- Witness for C3 at a concrete tool call against an always-timing-out
subprocess. -/
theorem run_tool_timeout_message_witness :
    run_tool "working_set" (.obj []) (fun _ => .timeout) (fun _ => none) =
      some "\x7b\"error\": \"Tool call timed out after 60s\"\x7d" :=
  run_tool_timeout_message "working_set" (.obj []) _ _ rfl

/-- C4: on a successful tools/call response (a parseable second output
line with no error field), run_tool returns the newline-join of the text
fields of the content items typed "text"; with no such items it returns
the JSON serialization of the full result object. -/
theorem run_tool_success_extraction :
    ∀ (name : String) (args : JsonVal) (proc : String → ProcOutcome)
      (loads : String → Option JsonVal) (stdout stderr : String)
      (respFields resultFields : List (String × JsonVal)) (items : List JsonVal)
      (texts : List String),
      proc (toolCallPayload name args) = .completed stdout stderr →
      2 ≤ (stripLines stdout).length →
      loads ((stripLines stdout).getD 1 "") = some (.obj respFields) →
      jsonLookup respFields "error" = none →
      jsonLookup respFields "result" = some (.obj resultFields) →
      jsonLookup resultFields "content" = some (.arr items) →
      extractTexts items = some texts →
      run_tool name args proc loads =
        some (if texts.isEmpty then JsonVal.dumps (.obj resultFields)
              else String.intercalate "\n" texts) := by
  intro name args proc loads stdout stderr respFields resultFields items texts
  intro h0 h1 h2 h3 h4 h5 h6
  simp only [run_tool, h0]
  rw [if_neg (by omega)]
  simp only [h2, h3, h4, Option.getD_some, h5, h6]

/-- Witness for C4: a two-line stdout whose second line parses to a
result with one text item. -/
theorem run_tool_success_extraction_witness :
    run_tool "read" (.obj []) (fun _ => .completed "a\nb" "")
      (fun s => if s = "b" then some (.obj [("result", .obj [("content",
        .arr [.obj [("type", .str "text"), ("text", .str "hi")]])])]) else none) =
      some "hi" :=
  run_tool_success_extraction "read" (.obj []) _ _ "a\nb" ""
    [("result", .obj [("content", .arr [.obj [("type", .str "text"), ("text", .str "hi")]])])]
    [("content", .arr [.obj [("type", .str "text"), ("text", .str "hi")]])]
    [.obj [("type", .str "text"), ("text", .str "hi")]]
    ["hi"] rfl (by decide) rfl rfl rfl rfl rfl

/-- C7 counterexample: an assistant message with empty content is a
non-system message, yet it appears nowhere in the constructed turn
history. -/
theorem turn_history_drops_empty_assistant :
    turnHistory [⟨"assistant", ""⟩] = [] ∧
    ("Assistant", "") ∉ turnHistory [⟨"assistant", ""⟩] := by
  decide

/-- C7 (amended): every user-role message appears as a turn in the
constructed history, and every assistant-role message with non-empty
content appears as a turn; assistant messages with empty content (and
messages of any other role) are omitted. -/
theorem turn_history_membership :
    ∀ (msgs : List Msg) (m : Msg), m ∈ msgs →
      (m.role = "user" → ("User", m.content) ∈ turnHistory msgs) ∧
      (m.role = "assistant" → m.content ≠ "" →
        ("Assistant", m.content) ∈ turnHistory msgs) := by
  intro msgs
  induction msgs with
  | nil => intro m h; cases h
  | cons hd tl ih =>
    intro m hm
    rcases List.mem_cons.mp hm with rfl | hmem
    · constructor
      · intro hrole
        unfold turnHistory
        rw [if_pos hrole]
        exact List.mem_cons_self _ _
      · intro hrole hc
        unfold turnHistory
        rw [if_neg (by rw [hrole]; decide), if_pos ⟨hrole, hc⟩]
        exact List.mem_cons_self _ _
    · obtain ⟨h1, h2⟩ := ih m hmem
      exact ⟨fun hr => turnHistory_cons_mem _ _ _ (h1 hr),
             fun hr hc => turnHistory_cons_mem _ _ _ (h2 hr hc)⟩

/-- Witness for C7's amended claim: a user message and a non-empty
assistant message each appear as turns. -/
theorem turn_history_membership_witness :
    ("User", "a") ∈ turnHistory [⟨"user", "a"⟩] ∧
    ("Assistant", "b") ∈ turnHistory [⟨"assistant", "b"⟩] :=
  ⟨(turn_history_membership [⟨"user", "a"⟩] ⟨"user", "a"⟩ (by decide)).1 rfl,
   (turn_history_membership [⟨"assistant", "b"⟩] ⟨"assistant", "b"⟩ (by decide)).2
     rfl (by decide)⟩

/-- C5: the streaming suffix diff is idempotent and monotone: processing
the same full text (or thinking text) for a block index twice in a row
emits a delta only on the first processing (reprocessing a whole
just-processed assistant message emits nothing at all), and the tracked
emitted-character counts per block never decrease across a run. -/
theorem bridge_suffix_diff_idempotent :
    (∀ (st : BridgeState) (i : Nat) (s : String),
        (processBlock (processBlock st i (.text s)).1 i (.text s)).2 = []) ∧
    (∀ (st : BridgeState) (i : Nat) (s : String),
        (processBlock (processBlock st i (.thinking s)).1 i (.thinking s)).2 = []) ∧
    (∀ (st : BridgeState) (blocks : List Block),
        (processAssistant (processAssistant st blocks).1 blocks).2 = []) ∧
    (∀ (st : BridgeState) (msgs : List (List Block)) (j : Nat),
        st.was_assistant = true →
        st.text_lens j ≤ (runMsgs st msgs).1.text_lens j ∧
        st.think_lens j ≤ (runMsgs st msgs).1.think_lens j) := by
  refine ⟨?_, ?_, ?_, ?_⟩
  · intro st i s
    rw [processBlock_of_covered _ i _ (processBlock_covers st i (.text s))]
  · intro st i s
    rw [processBlock_of_covered _ i _ (processBlock_covers st i (.thinking s))]
  · intro st blocks
    have hw : (processAssistant st blocks).1.was_assistant = true :=
      processAssistant_was st blocks
    rw [processAssistant_of_was _ hw]
    have hcov : coveredFrom (processAssistant st blocks).1 0 blocks := by
      simp only [processAssistant]
      exact processBlocks_covers blocks _ 0
    rw [processBlocks_of_covered blocks _ 0 hcov]
  · intro st msgs j h
    exact runMsgs_lens_mono msgs st h j

/-- Witness for C5's monotonicity part on a concrete one-message run. -/
theorem bridge_suffix_diff_idempotent_witness :
    freshRunState.was_assistant = true ∧
    (freshRunState.text_lens 0 ≤ (runMsgs freshRunState [[Block.text "ab"]]).1.text_lens 0 ∧
     freshRunState.think_lens 0 ≤ (runMsgs freshRunState [[Block.text "ab"]]).1.think_lens 0) :=
  ⟨rfl, bridge_suffix_diff_idempotent.2.2.2 freshRunState [[Block.text "ab"]] 0 rfl⟩

/-- C8: within one run of consecutive assistant messages (tracking reset
at the run's start), each block index occupied by a tool-use block gets
exactly one tool-call delta, carrying that tool's id, name and arguments
serialized to text (JSON-encoded for a dict, the str rendering
otherwise); unoccupied indices get none. -/
theorem bridge_tool_call_emitted_once (msgs : List (List Block)) (i : Nat) :
    ((runAssistant msgs).2.filter (isToolAt i)) =
      (firstToolAt msgs i).elim [] (fun t => [toolEvent i t]) := by
  cases msgs with
  | nil => rfl
  | cons m rest =>
    have ha : runAssistant (m :: rest) = runMsgs freshRunState (m :: rest) := rfl
    rw [ha]
    exact runMsgs_filter_main (m :: rest) freshRunState i rfl (by simp [freshRunState])

/-- Every event one block contributes has 0 in its emitted index field. -/
theorem processBlock_idx_zero (st : BridgeState) (i : Nat) (b : Block) :
    ((processBlock st i b).2.all toolIdxZero) = true := by
  cases b with
  | text s => simp only [processBlock]; split <;> simp [toolIdxZero]
  | thinking s => simp only [processBlock]; split <;> simp [toolIdxZero]
  | toolUse id name input => simp only [processBlock]; split <;> simp [toolIdxZero]
  | other => rfl

/-- Every event a block list contributes has 0 in its index field. -/
theorem processBlocks_idx_zero (bs : List Block) :
    ∀ (st : BridgeState) (i : Nat), ((processBlocks st i bs).2.all toolIdxZero) = true := by
  induction bs with
  | nil => intro st i; rfl
  | cons b rest ih =>
    intro st i
    simp only [processBlocks, List.all_append, Bool.and_eq_true]
    exact ⟨processBlock_idx_zero st i b, ih _ (i + 1)⟩

/-- Every event an assistant message contributes has 0 in its index
field. -/
theorem processAssistant_idx_zero (st : BridgeState) (blocks : List Block) :
    ((processAssistant st blocks).2.all toolIdxZero) = true := by
  simp only [processAssistant]
  exact processBlocks_idx_zero blocks _ 0

/-- The usage/DONE tail contains no tool-call event. -/
theorem emitDoneEvents_idx_zero (p c : Nat) :
    ((emitDoneEvents p c).all toolIdxZero) = true := by
  simp only [emitDoneEvents]
  split <;> rfl

/-- Every event of the streaming loop has 0 in its index field. -/
theorem mainLoop_idx_zero (stream : List SdkMessage) :
    ∀ (st : BridgeState) (ending : StreamEnd),
      ((mainLoop st stream ending).all toolIdxZero) = true := by
  induction stream with
  | nil =>
    intro st ending
    cases ending with
    | normal => rfl
    | exception e => rfl
  | cons msg rest ih =>
    intro st ending
    cases msg with
    | assistant blocks =>
      simp only [mainLoop, List.all_append, Bool.and_eq_true]
      exact ⟨processAssistant_idx_zero st blocks, ih _ ending⟩
    | result usage => exact emitDoneEvents_idx_zero _ _
    | other => exact ih _ ending

/-- C9: every tool-call delta the bridge emits carries the fixed value 0
in its `index` field, regardless of the content-block position of the
tool-use block it announces; deltas of distinct tool invocations in one
assistant turn are therefore not distinguished by index. -/
theorem bridge_tool_call_index_always_zero
    (messages : List Msg) (stream : List SdkMessage) (ending : StreamEnd) :
    ((mainEvents messages stream ending).all toolIdxZero) = true := by
  simp only [mainEvents]
  split
  · rfl
  · exact mainLoop_idx_zero stream initialState ending

/-- getLast? commutes with map. -/
theorem list_getLast?_map {α β : Type _} (f : α → β) :
    ∀ (l : List α), ((l.map f).getLast?) = (l.getLast?).map f
  | [] => rfl
  | [_] => rfl
  | a :: b :: t => by
    simp only [List.map_cons]
    rw [List.getLast?_cons_cons, ← List.map_cons f b t, list_getLast?_map f (b :: t),
        List.getLast?_cons_cons]

/-- The usage/DONE tail always ends with the sentinel event. -/
theorem emitDoneEvents_last (p c : Nat) :
    ((emitDoneEvents p c).getLast?) = some OutEvent.done := by
  simp only [emitDoneEvents]
  split <;> rfl

/-- The streaming loop's events always end with the sentinel event. -/
theorem mainLoop_last (stream : List SdkMessage) :
    ∀ (st : BridgeState) (ending : StreamEnd),
      ((mainLoop st stream ending).getLast?) = some OutEvent.done := by
  induction stream with
  | nil =>
    intro st ending
    cases ending with
    | normal => rfl
    | exception e => rfl
  | cons msg rest ih =>
    intro st ending
    cases msg with
    | assistant blocks =>
      simp only [mainLoop]
      have h := ih (processAssistant st blocks).1 ending
      have hne : mainLoop (processAssistant st blocks).1 rest ending ≠ [] := by
        intro hc
        rw [hc] at h
        exact Option.noConfusion h
      rw [List.getLast?_append_of_ne_nil _ hne]
      exact h
    | result usage => exact emitDoneEvents_last _ _
    | other => exact ih _ ending

/-- C1: for every invocation of the bridge's main routine that gets past
parsing its stdin JSON, the stdout line sequence ends with the literal
line `data: [DONE]`, whether the upstream stream completed with a result
message, raised an exception during streaming, or ended without a
completion signal. -/
theorem bridge_output_ends_with_done
    (messages : List Msg) (stream : List SdkMessage) (ending : StreamEnd) :
    ((mainStdout messages stream ending).getLast?) = some "data: [DONE]" := by
  simp only [mainStdout]
  rw [list_getLast?_map]
  simp only [mainEvents]
  split
  · rfl
  · rw [mainLoop_last]
    rfl

/-- A response that does not request tool use exits the tool loop at once,
touching nothing. -/
theorem toolLoop_not_tool (rtf : String → JsonVal → String) (resp : ApiResponse)
    (msgs : List ChatMsg) (prints : List String) (script : List ApiResult)
    (h : resp.stop_reason ≠ "tool_use") :
    toolLoop rtf resp msgs prints script = some (msgs, prints, resp) := by
  cases script with
  | nil => simp [toolLoop, h]
  | cons a rest =>
    cases a with
    | failure e => simp [toolLoop, h]
    | success r => simp [toolLoop, h]

/-- C6: API failure handling is asymmetric. If the first call of a turn
fails, the just-appended user turn is rolled back and the history is
exactly what it was before the turn. If a re-issued call inside the
tool-use loop fails, the loop is abandoned without rollback: the
assistant and tool-result turns already appended persist (and the final
printing step still runs on the stale tool-use response). -/
theorem chat_api_failure_asymmetry :
    (∀ (rtf : String → JsonVal → String) (msgs : List ChatMsg) (input e : String)
        (rest : List ApiResult),
        chatTurn rtf msgs input (.failure e :: rest) =
          some (msgs, ["  [ERROR] API: " ++ e])) ∧
    (∀ (rtf : String → JsonVal → String) (msgs : List ChatMsg) (input e : String)
        (r : ApiResponse) (rest : List ApiResult),
        r.stop_reason = "tool_use" →
        chatTurn rtf msgs input (.success r :: .failure e :: rest) =
          some (if (r.content.filterMap RespBlock.textAttr).isEmpty then
                  ((msgs ++ [⟨"user", .text input⟩]) ++ assistantToolTurns rtf r,
                   ([] ++ toolPrintsOf (r.content.filter RespBlock.isToolUse)) ++
                     ["  [ERROR] API: " ++ e])
                else
                  (((msgs ++ [⟨"user", .text input⟩]) ++ assistantToolTurns rtf r) ++
                     [⟨"assistant", .blocks r.content⟩],
                   (([] ++ toolPrintsOf (r.content.filter RespBlock.isToolUse)) ++
                      ["  [ERROR] API: " ++ e]) ++
                     ["\n" ++ String.intercalate "\n"
                        (r.content.filterMap RespBlock.textAttr) ++ "\n"]))) := by
  constructor
  · intro rtf msgs input e rest
    rfl
  · intro rtf msgs input e r rest h
    simp only [chatTurn, toolLoop, if_pos h]
    split <;> rfl

/-- Witness for C6: a failing first call leaves the history untouched; a
tool-use response followed by a failing call leaves the user, assistant
and tool-result turns in the history. -/
theorem chat_api_failure_asymmetry_witness :
    chatTurn (fun _ _ => "ok") [] "hi" [.failure "boom"] =
      some ([], ["  [ERROR] API: boom"]) ∧
    chatTurn (fun _ _ => "ok") [] "hi"
        [.success ⟨"tool_use", [.toolUse "t1" "read" (.obj [])]⟩, .failure "boom"] =
      some ([⟨"user", .text "hi"⟩,
             ⟨"assistant", .blocks [.toolUse "t1" "read" (.obj [])]⟩,
             ⟨"user", .toolResults [⟨"t1", "ok"⟩]⟩],
            ["  [TOOL] read(\x7b\x7d)", "  [ERROR] API: boom"]) :=
  ⟨chat_api_failure_asymmetry.1 (fun _ _ => "ok") [] "hi" "boom" [],
   chat_api_failure_asymmetry.2 (fun _ _ => "ok") [] "hi" "boom"
     ⟨"tool_use", [.toolUse "t1" "read" (.obj [])]⟩ [] rfl⟩

/-- C10: when the final API response of a turn (stop reason not tool-use)
contains no block with a text attribute, nothing is printed for it and no
assistant turn is appended: the history is exactly what the loop had
built before, ending with the turn appended before the call. -/
theorem chat_final_response_no_text_frame :
    (∀ (rtf : String → JsonVal → String) (msgs : List ChatMsg) (input : String)
        (r : ApiResponse) (rest : List ApiResult),
        r.stop_reason ≠ "tool_use" →
        r.content.filterMap RespBlock.textAttr = [] →
        chatTurn rtf msgs input (.success r :: rest) =
          some (msgs ++ [⟨"user", .text input⟩], [])) ∧
    (∀ (rtf : String → JsonVal → String) (msgs : List ChatMsg) (input : String)
        (r : ApiResponse) (rest : List ApiResult) (m : List ChatMsg)
        (prints : List String) (final : ApiResponse),
        toolLoop rtf r (msgs ++ [⟨"user", .text input⟩]) [] rest =
          some (m, prints, final) →
        final.stop_reason ≠ "tool_use" →
        final.content.filterMap RespBlock.textAttr = [] →
        chatTurn rtf msgs input (.success r :: rest) = some (m, prints)) := by
  constructor
  · intro rtf msgs input r rest h1 h2
    simp only [chatTurn]
    rw [toolLoop_not_tool rtf r _ [] rest h1]
    simp [h2]
  · intro rtf msgs input r rest m prints final htl h1 h2
    simp only [chatTurn]
    rw [htl]
    simp [h2]

/-- Witness for C10: a non-tool-use response with a single non-text block
prints nothing and appends no assistant turn. -/
theorem chat_final_response_no_text_frame_witness :
    chatTurn (fun _ _ => "ok") [] "hi" [.success ⟨"end_turn", [.other]⟩] =
      some ([⟨"user", .text "hi"⟩], []) ∧
    chatTurn (fun _ _ => "ok") [] "hey" [.success ⟨"end_turn", [.other]⟩] =
      some ([⟨"user", .text "hey"⟩], []) :=
  ⟨chat_final_response_no_text_frame.1 (fun _ _ => "ok") [] "hi"
     ⟨"end_turn", [.other]⟩ [] (by decide) rfl,
   chat_final_response_no_text_frame.2 (fun _ _ => "ok") [] "hey"
     ⟨"end_turn", [.other]⟩ [] [⟨"user", .text "hey"⟩] [] ⟨"end_turn", [.other]⟩
     rfl (by decide) rfl⟩
